import Mathlib

/-!
Shallow embedding of `compute_results_mscc.py` (sct-pipeline/dcm_metric_normalization).

The script reduces per-subject spinal-cord-compression measurement tables to one
row per subject (`read_MSCC`), joins the mJOA outcome score (`add_mJOA_to_df`),
and computes Spearman rank correlations (`compute_spearmans` via scipy's
`spearmanr`).

Modelling choices:
- A per-subject measurement csv is a `List MRow` (columns `Compression Level`,
  `MSCC`, `Normalized MSCC`); levels are `ℤ`, metric values are `ℚ`.
- The participants.tsv table is a `List Participant`.
- The directory listing passed to `read_MSCC` is a `List FileEntry` in discovery
  order; `content = none` models a file whose csv load raises.
- Python exceptions that abort the run (`KeyError`, `IndexError`, `ValueError`
  from numpy/pandas/scipy) are an `Except RunError` result.
- scipy's `spearmanr`: unequal 1-D input lengths raise `ValueError`
  (`np.column_stack` shape mismatch); fewer than two observations, or constant
  ranks, yield a NaN result.  The defined coefficient for `n ≥ 2` is
  `cov / sqrt (va * vb)` over average ranks; we carry the rational pair
  `(cov, va * vb)`, which determines it, and do not model the p-value (a real
  special-function computation irrelevant to the verified claims).
-/

/-- One row of a per-subject measurement table:
`Compression Level`, `MSCC`, `Normalized MSCC`. -/
structure MRow where
  level : ℤ
  mscc : ℚ
  mscc_norm : ℚ
  deriving DecidableEq, Repr

/-- One row of the participants.tsv table: `participant_id`,
`max_compression_level`, `mjoa`. -/
structure Participant where
  participant_id : String
  max_compression_level : String
  mjoa : ℚ
  deriving DecidableEq, Repr

/-- One row of the consolidated `mscc_df` built by `read_MSCC`
(`subject`, `level`, `MSCC`, `MSCC_norm`), plus the `mJOA` column that
`add_mJOA_to_df` fills in later (`none` = not yet set). -/
structure CRow where
  subject : String
  level : ℤ
  mscc : ℚ
  mscc_norm : ℚ
  mJOA : Option ℚ
  deriving DecidableEq, Repr

/-- One entry of the `os.listdir` result: a file name and its parsed csv
content; `none` models a file on which `pd.read_csv` raises. -/
structure FileEntry where
  name : String
  content : Option (List MRow)
  deriving DecidableEq, Repr

/-- Python exceptions that abort the run. -/
inductive RunError where
  | keyError
  | indexError
  | valueError
  | loadError
  deriving DecidableEq, Repr

/-- `DICT_DISC_LABELS`: the fixed disc-label-to-ordinal map of the script. -/
def DICT_DISC_LABELS : String → Option ℤ := fun s =>
  if s = "C2/C3" then some 3
  else if s = "C3/C4" then some 4
  else if s = "C4/C5" then some 5
  else if s = "C5/C6" then some 6
  else if s = "C6/C7" then some 7
  else none

/-- Characters of a file name up to (excluding) the first underscore:
`file.split('_')[0]`. -/
def takeToUnderscore : List Char → List Char
  | [] => []
  | c :: cs => if c = '_' then [] else c :: takeToUnderscore cs

/-- `file.split('_')[0]`: the subject id derived from a file name. -/
def subjectId (name : String) : String :=
  String.mk (takeToUnderscore name.toList)

/-- Whether `p` is an initial segment of `s`. -/
def startsWithList (p s : List Char) : Bool :=
  match p, s with
  | [], _ => true
  | _ :: _, [] => false
  | a :: ps, b :: cs => (a = b) && startsWithList ps cs

/-- Whether the pattern occurs contiguously in `s` (Python `pat in s`). -/
def hasSubList (p : List Char) : List Char → Bool
  | [] => startsWithList p []
  | c :: cs => startsWithList p (c :: cs) || hasSubList p cs

/-- Python `'_mscc' in file`. -/
def isMsccFile (name : String) : Bool :=
  hasSubList "_mscc".toList name.toList

/-- One step of numpy's `argmin` scan over absolute distances: keep the current
best unless the new distance is strictly smaller (so the first minimum wins). -/
def argminStep (t b x : ℤ) : ℤ :=
  if |x - t| < |b - t| then x else b

/-- `levels[np.abs(np.array(levels) - t).argmin()]`: the level value at the
first index of minimal absolute distance to `t`; `none` on an empty list
(numpy raises `ValueError`). -/
def argminLevel (t : ℤ) : List ℤ → Option ℤ
  | [] => none
  | l :: rest => some (rest.foldl (argminStep t) l)

/-- Lines 113–116 of the script: the ordinal finally searched for in the
subject's table — the target itself when some row matches it exactly,
otherwise the nearest available level via the `argmin` fallback. -/
def chooseLevel (target : ℤ) (tbl : List MRow) : Option ℤ :=
  if (tbl.map (fun r => r.level)).contains target then some target
  else argminLevel target (tbl.map (fun r => r.level))

/-- Lines 113–122: the measurement row the script reads `level`, `MSCC` and
`Normalized MSCC` from — the first row whose `Compression Level` equals the
chosen ordinal (`idx_max = idx_max[0]`). -/
def selectRow (target : ℤ) (tbl : List MRow) : Option MRow :=
  match chooseLevel target tbl with
  | none => none
  | some lv => tbl.find? (fun r => r.level == lv)

/-- `df_participants.loc[df_participants['participant_id']==sub_id, ...].to_list()[0]`:
the first participant row matching the subject id, if any. -/
def partFor (parts : List Participant) (sid : String) : Option Participant :=
  (parts.filter (fun p => p.participant_id == sid)).head?

/-- The body of the `read_MSCC` loop for one directory entry: `none` when the
file is skipped (not an `_mscc` file, or excluded subject), `some` row when a
consolidated row is appended, `error` when the iteration raises. -/
def processFile (exclude : List String) (parts : List Participant)
    (f : FileEntry) : Except RunError (Option CRow) :=
  if isMsccFile f.name then
    if exclude.contains (subjectId f.name) then .ok none
    else
      match f.content with
      | none => .error .loadError
      | some tbl =>
        match partFor parts (subjectId f.name) with
        | none => .error .indexError
        | some p =>
          match DICT_DISC_LABELS p.max_compression_level with
          | none => .error .keyError
          | some target =>
            match selectRow target tbl with
            | none => .error .valueError
            | some r =>
              .ok (some ⟨subjectId f.name, r.level, r.mscc, r.mscc_norm, none⟩)
  else .ok none

/-- `read_MSCC(path_mscc, exclude, df_participants)`: iterate the directory
listing in discovery order, skip non-`_mscc` files and excluded subjects, and
append one consolidated row per remaining subject; any raised exception aborts
the whole loop. -/
def read_MSCC (files : List FileEntry) (exclude : List String)
    (parts : List Participant) : Except RunError (List CRow) :=
  match files with
  | [] => .ok []
  | f :: fs =>
    match processFile exclude parts f with
    | .error e => .error e
    | .ok none => read_MSCC fs exclude parts
    | .ok (some r) => (read_MSCC fs exclude parts).map (fun rs => r :: rs)

/-- The directory entries `read_MSCC` actually reduces: `_mscc` files whose
subject id is not excluded. -/
def keptFiles (files : List FileEntry) (exclude : List String) : List FileEntry :=
  files.filter (fun f => isMsccFile f.name && !(exclude.contains (subjectId f.name)))

/-- `participant_df.loc[participant_df['participant_id']==subject,'mjoa'].to_list()`. -/
def mjoaVals (parts : List Participant) (sid : String) : List ℚ :=
  (parts.filter (fun p => p.participant_id == sid)).map (fun p => p.mjoa)

/-- Pandas masked assignment, element part: walk the rows and give each row
whose `subject` matches the next value from `vals`. -/
def assignVals (sid : String) : List ℚ → List CRow → List CRow
  | _, [] => []
  | vs, r :: rs =>
    if r.subject == sid then
      match vs with
      | [] => r :: rs
      | v :: vt => { r with mJOA := some v } :: assignVals sid vt rs
    else r :: assignVals sid vs rs

/-- `mscc_df.loc[mscc_df['subject']==subject,'mJOA'] = vals`: pandas raises
`ValueError` unless the list length equals the number of selected rows. -/
def setMJOA (sid : String) (vals : List ℚ) (rows : List CRow) :
    Except RunError (List CRow) :=
  if vals.length = (rows.filter (fun r => r.subject == sid)).length then
    .ok (assignVals sid vals rows)
  else .error .valueError

/-- The loop of `add_mJOA_to_df` over the pre-computed subject list. -/
def addGo (parts : List Participant) :
    List String → List CRow → Except RunError (List CRow)
  | [], rows => .ok rows
  | s :: ss, rows =>
    match setMJOA s (mjoaVals parts s) rows with
    | .error e => .error e
    | .ok rows' => addGo parts ss rows'

/-- `add_mJOA_to_df(participant_df, mscc_df)`: for each subject of the
consolidated table, in order, write that subject's `mjoa` values into the
`mJOA` column by masked assignment. -/
def add_mJOA_to_df (parts : List Participant) (rows : List CRow) :
    Except RunError (List CRow) :=
  addGo parts (rows.map (fun r => r.subject)) rows

/-- The effect of a successful join on one consolidated row: the `mJOA` field
becomes the matching participant's `mjoa`, every other field is untouched. -/
def joinRow (parts : List Participant) (r : CRow) : CRow :=
  match partFor parts r.subject with
  | some p => { r with mJOA := some p.mjoa }
  | none => r

/-- Result of scipy's `spearmanr` as far as the script consumes it: `nan` for
the degenerate cases (fewer than two observations, or zero rank variance), or
the rational data `(cov, denSq)` with coefficient `cov / sqrt denSq` over
average ranks.  The p-value is not modelled. -/
inductive Spearman where
  | nan
  | coeff (cov : ℚ) (denSq : ℚ)
  deriving DecidableEq, Repr

/-- `scipy.stats.rankdata` (average method) on a list of values. -/
def rankdata (xs : List ℚ) : List ℚ :=
  xs.map (fun x =>
    (((xs.filter (fun y => y < x)).length : ℚ) + 1
      + ((xs.filter (fun y => y ≤ x)).length : ℚ)) / 2)

/-- `scipy.stats.spearmanr(a, b)` on two 1-D inputs: `ValueError` when the
lengths differ, NaN when fewer than two observations or the ranks are
constant, otherwise the Pearson data of the average ranks. -/
def spearmanr (a b : List ℚ) : Except RunError Spearman :=
  if a.length ≠ b.length then .error .valueError
  else if a.length ≤ 1 then .ok .nan
  else
    let ra := rankdata a
    let rb := rankdata b
    let n : ℚ := (a.length : ℚ)
    let ma := ra.sum / n
    let mb := rb.sum / n
    let cov := ((ra.zip rb).map (fun p => (p.1 - ma) * (p.2 - mb))).sum
    let va := (ra.map (fun x => (x - ma) ^ 2)).sum
    let vb := (rb.map (fun x => (x - mb) ^ 2)).sum
    if va * vb = 0 then .ok .nan else .ok (.coeff cov (va * vb))

/-- `compute_spearmans(a, b)`: the script converts to numpy arrays and calls
`spearmanr`. -/
def compute_spearmans (a b : List ℚ) : Except RunError Spearman :=
  spearmanr a b

/-- `x_vals = df['mJOA']` (line 152 of the script): the `mJOA` column is not
among the four columns `mscc_df` is created with; it comes into existence only
when the join loop's masked assignment runs at least once, which happens
exactly when the table has at least one row.  On a zero-row table the column
was never created and the access raises `KeyError`.  On a non-empty table the
column exists; after a successful join every cell of it is set (see
`add_mJOA_sets_all`), so the `getD 0` default for an unset cell is dead code
on every reachable path. -/
def mJOAColumn (rows : List CRow) : Except RunError (List ℚ) :=
  match rows with
  | [] => .error .keyError
  | _ => .ok (rows.map (fun r => r.mJOA.getD 0))

/-- The pipeline of `main` after input loading, without the chart rendering:
reduce, join, read the `mJOA` column (`KeyError` when it was never created),
then the two correlations of `gen_chart_corr_mjoa_mscc` (`mJOA` against
`MSCC` and against `MSCC_norm`). -/
def runPipeline (files : List FileEntry) (exclude : List String)
    (parts : List Participant) :
    Except RunError (List CRow × Spearman × Spearman) := do
  let m ← read_MSCC files exclude parts
  let m2 ← add_mJOA_to_df parts m
  let x ← mJOAColumn m2
  let s1 ← compute_spearmans x (m2.map (fun r => r.mscc))
  let s2 ← compute_spearmans x (m2.map (fun r => r.mscc_norm))
  return (m2, s1, s2)

/-! ### Lemmas about the nearest-level fallback -/

/-- The `argminStep` fold returns the first element of minimal absolute
distance to `t`: the scanned list splits around the result, every element
strictly before it has strictly larger distance, and no element anywhere has
smaller distance. -/
lemma argmin_fold_spec (t : ℤ) (rest : List ℤ) :
    ∀ l : ℤ, ∃ pre suf,
      l :: rest = pre ++ (rest.foldl (argminStep t) l) :: suf ∧
      (∀ p ∈ pre, |rest.foldl (argminStep t) l - t| < |p - t|) ∧
      (∀ x ∈ l :: rest, |rest.foldl (argminStep t) l - t| ≤ |x - t|) := by
  induction rest with
  | nil =>
    intro l
    exact ⟨[], [], rfl, by simp, by simp⟩
  | cons x xs ih =>
    intro l
    have hfold : (x :: xs).foldl (argminStep t) l = xs.foldl (argminStep t) (argminStep t l x) :=
      rfl
    obtain ⟨pre, suf, hsplit, hpre, hmin⟩ := ih (argminStep t l x)
    by_cases h : |x - t| < |l - t|
    · have hb : argminStep t l x = x := if_pos h
      rw [hb] at hsplit hpre hmin
      rw [hfold, hb]
      refine ⟨l :: pre, suf, ?_, ?_, ?_⟩
      · rw [List.cons_append, ← hsplit]
      · intro p hp
        rcases List.mem_cons.mp hp with hpl | hpp
        · subst hpl
          exact lt_of_le_of_lt (hmin x (List.mem_cons_self x xs)) h
        · exact hpre p hpp
      · intro z hz
        rcases List.mem_cons.mp hz with hzl | hzt
        · subst hzl
          exact le_of_lt (lt_of_le_of_lt (hmin x (List.mem_cons_self x xs)) h)
        · exact hmin z hzt
    · have hb : argminStep t l x = l := if_neg h
      have hxl : |l - t| ≤ |x - t| := not_lt.mp h
      rw [hb] at hsplit hpre hmin
      rw [hfold, hb]
      cases pre with
      | nil =>
        have hl : l = xs.foldl (argminStep t) l := (List.cons.injEq _ _ _ _ ▸ hsplit).1
        refine ⟨[], x :: xs, ?_, by simp, ?_⟩
        · rw [List.nil_append, ← hl]
        · intro z hz
          rcases List.mem_cons.mp hz with hzl | hzt
          · subst hzl
            rw [← hl]
          · rcases List.mem_cons.mp hzt with hzx | hzxs
            · subst hzx
              rw [← hl]
              exact hxl
            · exact hmin z (List.mem_cons_of_mem l hzxs)
      | cons q pre' =>
        have hq : l = q ∧ xs = pre' ++ xs.foldl (argminStep t) l :: suf :=
          List.cons.injEq _ _ _ _ ▸ hsplit
        have hlt : |xs.foldl (argminStep t) l - t| < |l - t| := by
          have := hpre q (List.mem_cons_self q pre')
          rw [← hq.1] at this
          exact this
        refine ⟨l :: x :: pre', suf, ?_, ?_, ?_⟩
        · rw [List.cons_append, List.cons_append, ← hq.2]
        · intro p hp
          rcases List.mem_cons.mp hp with hpl | hpmem
          · subst hpl
            exact hlt
          · rcases List.mem_cons.mp hpmem with hpx | hpp
            · subst hpx
              exact lt_of_lt_of_le hlt hxl
            · exact hpre p (List.mem_cons_of_mem q hpp)
        · intro z hz
          rcases List.mem_cons.mp hz with hzl | hzt
          · rw [hzl]
            exact hmin l (List.mem_cons_self l xs)
          · rcases List.mem_cons.mp hzt with hzx | hzxs
            · subst hzx
              exact le_of_lt (lt_of_lt_of_le hlt hxl)
            · exact hmin z (List.mem_cons_of_mem l hzxs)

/-- `argminLevel` on a non-empty list returns the first value of minimal
absolute distance to the target. -/
lemma argminLevel_spec (t : ℤ) (ls : List ℤ) (hne : ls ≠ []) :
    ∃ v pre suf, argminLevel t ls = some v ∧ ls = pre ++ v :: suf ∧
      (∀ p ∈ pre, |v - t| < |p - t|) ∧ ∀ x ∈ ls, |v - t| ≤ |x - t| := by
  cases ls with
  | nil => exact absurd rfl hne
  | cons l rest =>
    obtain ⟨pre, suf, hsplit, hpre, hmin⟩ := argmin_fold_spec t rest l
    exact ⟨_, pre, suf, rfl, hsplit, hpre, hmin⟩

/-- Whatever `argminLevel` returns is a member of the scanned list. -/
lemma argminLevel_mem {t v : ℤ} {ls : List ℤ} (h : argminLevel t ls = some v) :
    v ∈ ls := by
  cases ls with
  | nil => exact absurd h (by simp [argminLevel])
  | cons l rest =>
    obtain ⟨pre, suf, hsplit, _, _⟩ := argmin_fold_spec t rest l
    have hv : rest.foldl (argminStep t) l = v := by
      simpa [argminLevel] using h
    rw [hsplit, hv]
    exact List.mem_append_right pre (List.mem_cons_self v suf)

/-- The ordinal `chooseLevel` settles on always occurs in the table. -/
lemma chooseLevel_mem {target lv : ℤ} {tbl : List MRow}
    (h : chooseLevel target tbl = some lv) :
    lv ∈ tbl.map (fun m => m.level) := by
  unfold chooseLevel at h
  by_cases hc : (tbl.map (fun m => m.level)).contains target
  · rw [if_pos hc] at h
    cases h
    exact List.elem_iff.mp hc
  · rw [if_neg hc] at h
    exact argminLevel_mem h

/-- When some row matches the target exactly, `chooseLevel` returns the
target itself. -/
lemma chooseLevel_exact {target : ℤ} {tbl : List MRow}
    (h : target ∈ tbl.map (fun m => m.level)) :
    chooseLevel target tbl = some target := by
  unfold chooseLevel
  rw [if_pos (List.elem_iff.mpr h)]

/-- `find?` on the level column returns the first row at the target level:
the table splits around a row at the target whose predecessors all miss it. -/
lemma find_first_level (target : ℤ) (tbl : List MRow)
    (h : target ∈ tbl.map (fun m => m.level)) :
    ∃ pre r suf, tbl = pre ++ r :: suf ∧ r.level = target ∧
      (∀ p ∈ pre, p.level ≠ target) ∧
      tbl.find? (fun m => m.level == target) = some r := by
  induction tbl with
  | nil => simp at h
  | cons m ms ih =>
    by_cases hm : m.level = target
    · refine ⟨[], m, ms, rfl, hm, by simp, ?_⟩
      exact List.find?_cons_of_pos ms (by simpa using hm)
    · have h0 : target = m.level ∨ ∃ a ∈ ms, a.level = target := by simpa using h
      have h' : target ∈ ms.map (fun x => x.level) := by
        rcases h0 with h1 | ⟨a, ha, hat⟩
        · exact absurd h1.symm hm
        · exact List.mem_map.mpr ⟨a, ha, hat⟩
      obtain ⟨pre, r, suf, hsplit, hrt, hpre, hfind⟩ := ih h'
      refine ⟨m :: pre, r, suf, by rw [List.cons_append, hsplit], hrt, ?_, ?_⟩
      · intro p hp
        rcases List.mem_cons.mp hp with h1 | h2
        · rw [h1]
          exact hm
        · exact hpre p h2
      · rw [List.find?_cons_of_neg ms (by simpa using hm)]
        exact hfind

/-- When some row matches the target exactly, `selectRow` returns the first
such row. -/
lemma selectRow_exact {target : ℤ} {tbl : List MRow}
    (h : target ∈ tbl.map (fun m => m.level)) :
    ∃ pre r suf, tbl = pre ++ r :: suf ∧ r.level = target ∧
      (∀ p ∈ pre, p.level ≠ target) ∧ selectRow target tbl = some r := by
  obtain ⟨pre, r, suf, hsplit, hrt, hpre, hfind⟩ := find_first_level target tbl h
  refine ⟨pre, r, suf, hsplit, hrt, hpre, ?_⟩
  unfold selectRow
  rw [chooseLevel_exact h]
  exact hfind

/-- Any row `selectRow` returns belongs to the table. -/
lemma selectRow_mem {target : ℤ} {tbl : List MRow} {r : MRow}
    (h : selectRow target tbl = some r) : r ∈ tbl := by
  unfold selectRow at h
  cases hc : chooseLevel target tbl with
  | none => rw [hc] at h; cases h
  | some lv =>
    rw [hc] at h
    exact List.mem_of_find?_eq_some h

/-! ### Inversion lemmas for one step of the `read_MSCC` loop -/

/-- A non-`_mscc` file is skipped. -/
lemma processFile_not_mscc {ex : List String} {ps : List Participant}
    {f : FileEntry} (h : isMsccFile f.name = false) :
    processFile ex ps f = .ok none := by
  unfold processFile
  rw [if_neg (by simp [h])]

/-- A file whose subject id is excluded is skipped. -/
lemma processFile_excluded {ex : List String} {ps : List Participant}
    {f : FileEntry} (h : ex.contains (subjectId f.name) = true) :
    processFile ex ps f = .ok none := by
  have hmem : subjectId f.name ∈ ex := List.elem_iff.mp h
  unfold processFile
  by_cases h1 : isMsccFile f.name <;> simp [h1, hmem]

/-- A skipped file is exactly one that is not an `_mscc` file or belongs to an
excluded subject. -/
lemma processFile_ok_none {ex : List String} {ps : List Participant}
    {f : FileEntry} (h : processFile ex ps f = .ok none) :
    (isMsccFile f.name && !(ex.contains (subjectId f.name))) = false := by
  unfold processFile at h
  by_cases h1 : isMsccFile f.name
  · rw [if_pos h1] at h
    by_cases h2 : ex.contains (subjectId f.name)
    · simp [h1, List.elem_iff.mp h2]
    · rw [if_neg h2] at h
      exfalso
      rcases hc : f.content with _ | tbl
      · simp only [hc] at h
        cases h
      · simp only [hc] at h
        rcases hp : partFor ps (subjectId f.name) with _ | p
        · simp only [hp] at h
          cases h
        · simp only [hp] at h
          rcases hd : DICT_DISC_LABELS p.max_compression_level with _ | tg
          · simp only [hd] at h
            cases h
          · simp only [hd] at h
            rcases hs : selectRow tg tbl with _ | r
            · simp only [hs] at h
              cases h
            · simp only [hs] at h
              cases h
  · simp [h1]

/-- Full inversion of a step that emits a consolidated row. -/
lemma processFile_ok_some {ex : List String} {ps : List Participant}
    {f : FileEntry} {r : CRow} (h : processFile ex ps f = .ok (some r)) :
    isMsccFile f.name = true ∧ ex.contains (subjectId f.name) = false ∧
    ∃ tbl p target m, f.content = some tbl ∧
      partFor ps (subjectId f.name) = some p ∧
      DICT_DISC_LABELS p.max_compression_level = some target ∧
      selectRow target tbl = some m ∧
      r = ⟨subjectId f.name, m.level, m.mscc, m.mscc_norm, none⟩ := by
  unfold processFile at h
  by_cases h1 : isMsccFile f.name
  · rw [if_pos h1] at h
    by_cases h2 : ex.contains (subjectId f.name)
    · rw [if_pos h2] at h
      cases h
    · rw [if_neg h2] at h
      rcases hc : f.content with _ | tbl
      · simp only [hc] at h
        cases h
      · simp only [hc] at h
        rcases hp : partFor ps (subjectId f.name) with _ | p
        · simp only [hp] at h
          cases h
        · simp only [hp] at h
          rcases hd : DICT_DISC_LABELS p.max_compression_level with _ | tg
          · simp only [hd] at h
            cases h
          · simp only [hd] at h
            rcases hs : selectRow tg tbl with _ | m
            · simp only [hs] at h
              cases h
            · simp only [hs, Except.ok.injEq, Option.some.injEq] at h
              exact ⟨h1, by simpa using h2,
                tbl, p, tg, m, rfl, rfl, hd, hs, h.symm⟩
  · rw [if_neg h1] at h
    cases h

/-! ### Lemmas about the whole `read_MSCC` loop -/

/-- The subjects of a successfully reduced table are exactly the subject ids
of the kept files, in discovery order. -/
lemma read_MSCC_subjects {ex : List String} {ps : List Participant} :
    ∀ {files : List FileEntry} {rows : List CRow},
      read_MSCC files ex ps = .ok rows →
      rows.map (fun r => r.subject) =
        (keptFiles files ex).map (fun f => subjectId f.name) := by
  intro files
  induction files with
  | nil =>
    intro rows h
    simp only [read_MSCC, Except.ok.injEq] at h
    rw [← h]
    simp [keptFiles]
  | cons f fs ih =>
    intro rows h
    rcases hpf : processFile ex ps f with e | o
    · simp only [read_MSCC, hpf] at h
      cases h
    · cases o with
      | none =>
        simp only [read_MSCC, hpf] at h
        have hcond := processFile_ok_none hpf
        rw [show keptFiles (f :: fs) ex = keptFiles fs ex from by
          unfold keptFiles
          rw [List.filter_cons_of_neg (fun ht => by
            have ht' : (isMsccFile f.name && !(ex.contains (subjectId f.name))) = true := ht
            rw [hcond] at ht'
            cases ht')]]
        exact ih h
      | some r =>
        simp only [read_MSCC, hpf] at h
        rcases hrec : read_MSCC fs ex ps with e2 | rs
        · rw [hrec] at h
          simp [Except.map] at h
        · rw [hrec] at h
          simp only [Except.map, Except.ok.injEq] at h
          obtain ⟨h1, h2, tbl, p, tg, m, hc, hp, hd, hs, hr⟩ := processFile_ok_some hpf
          have hnm : subjectId f.name ∉ ex := by simpa using h2
          rw [← h, show keptFiles (f :: fs) ex = f :: keptFiles fs ex from by
            unfold keptFiles
            rw [List.filter_cons_of_pos (by simp [h1, hnm])]]
          simp only [List.map_cons]
          rw [ih hrec, hr]

/-- Every row of a successfully reduced table carries the subject id of one of
the input files and a level drawn from that file's own table. -/
lemma read_MSCC_rows_sound {ex : List String} {ps : List Participant} :
    ∀ {files : List FileEntry} {rows : List CRow},
      read_MSCC files ex ps = .ok rows →
      ∀ r ∈ rows, ∃ f ∈ files, subjectId f.name = r.subject ∧
        ∃ tbl, f.content = some tbl ∧ r.level ∈ tbl.map (fun m => m.level) := by
  intro files
  induction files with
  | nil =>
    intro rows h
    simp only [read_MSCC, Except.ok.injEq] at h
    rw [← h]
    intro r hr
    cases hr
  | cons f fs ih =>
    intro rows h
    rcases hpf : processFile ex ps f with e | o
    · simp only [read_MSCC, hpf] at h
      cases h
    · cases o with
      | none =>
        simp only [read_MSCC, hpf] at h
        intro r hr
        obtain ⟨g, hg, hrest⟩ := ih h r hr
        exact ⟨g, List.mem_cons_of_mem f hg, hrest⟩
      | some r0 =>
        simp only [read_MSCC, hpf] at h
        rcases hrec : read_MSCC fs ex ps with e2 | rs
        · rw [hrec] at h
          simp [Except.map] at h
        · rw [hrec] at h
          simp only [Except.map, Except.ok.injEq] at h
          intro r hr
          rw [← h] at hr
          rcases List.mem_cons.mp hr with hr0 | hrs
          · obtain ⟨h1, h2, tbl, p, tg, m, hc, hp, hd, hs, hr0eq⟩ := processFile_ok_some hpf
            refine ⟨f, List.mem_cons_self f fs, ?_, tbl, hc, ?_⟩
            · rw [hr0, hr0eq]
            · rw [hr0, hr0eq]
              exact List.mem_map.mpr ⟨m, selectRow_mem hs, rfl⟩
          · obtain ⟨g, hg, hrest⟩ := ih hrec r hrs
            exact ⟨g, List.mem_cons_of_mem f hg, hrest⟩

/-- A subject with no participant record has an empty `partFor` lookup. -/
lemma partFor_eq_none {ps : List Participant} {sid : String}
    (h : ∀ p ∈ ps, p.participant_id ≠ sid) : partFor ps sid = none := by
  unfold partFor
  rw [List.filter_eq_nil_iff.mpr (fun p hp hb => h p hp (eq_of_beq hb))]
  rfl

/-- A kept file whose subject has no participant record makes the step raise
(`IndexError` from the empty lookup, or already the csv load). -/
lemma processFile_err_missing_meta {ex : List String} {ps : List Participant}
    {f : FileEntry} (h1 : isMsccFile f.name = true)
    (h2 : ex.contains (subjectId f.name) = false)
    (h3 : ∀ p ∈ ps, p.participant_id ≠ subjectId f.name) :
    ∃ e, processFile ex ps f = .error e := by
  have hnm : subjectId f.name ∉ ex := by simpa using h2
  unfold processFile
  rw [if_pos h1, if_neg (by simp [hnm])]
  rcases hc : f.content with _ | tbl
  · exact ⟨.loadError, rfl⟩
  · rw [partFor_eq_none h3]
    exact ⟨.indexError, rfl⟩

/-- If any kept file's subject is missing from the participants table, the
whole `read_MSCC` loop aborts with an error. -/
lemma read_MSCC_err_missing_meta {ex : List String} {ps : List Participant} :
    ∀ {files : List FileEntry} {f : FileEntry}, f ∈ files →
      isMsccFile f.name = true →
      ex.contains (subjectId f.name) = false →
      (∀ p ∈ ps, p.participant_id ≠ subjectId f.name) →
      ∃ e, read_MSCC files ex ps = .error e := by
  intro files
  induction files with
  | nil =>
    intro f hf
    cases hf
  | cons g fs ih =>
    intro f hf h1 h2 h3
    rcases List.mem_cons.mp hf with hfg | hftail
    · obtain ⟨e, he⟩ := processFile_err_missing_meta (f := g)
        (hfg ▸ h1) (hfg ▸ h2) (hfg ▸ h3)
      exact ⟨e, by simp only [read_MSCC, he]⟩
    · rcases hpf : processFile ex ps g with e | o
      · exact ⟨e, by simp only [read_MSCC, hpf]⟩
      · cases o with
        | none =>
          obtain ⟨e, he⟩ := ih hftail h1 h2 h3
          exact ⟨e, by simp only [read_MSCC, hpf]; exact he⟩
        | some r =>
          obtain ⟨e, he⟩ := ih hftail h1 h2 h3
          exact ⟨e, by simp only [read_MSCC, hpf, he, Except.map]⟩

/-- The reduction only looks at the exclusion list through membership tests. -/
lemma read_MSCC_contains_ext {ps : List Participant} {ex1 ex2 : List String}
    (hex : ∀ s, ex1.contains s = ex2.contains s) :
    ∀ files, read_MSCC files ex1 ps = read_MSCC files ex2 ps := by
  have hpf : ∀ f, processFile ex1 ps f = processFile ex2 ps f := by
    intro f
    unfold processFile
    rw [hex (subjectId f.name)]
  intro files
  induction files with
  | nil => rfl
  | cons f fs ih => simp only [read_MSCC, hpf f, ih]

/-- The content of a file whose subject is excluded is never inspected. -/
lemma read_MSCC_excluded_content_irrelevant {ex : List String}
    {ps : List Participant} :
    ∀ (files1 files2 : List FileEntry),
      files1.length = files2.length →
      (∀ pr ∈ files1.zip files2, pr.1.name = pr.2.name ∧
        (ex.contains (subjectId pr.1.name) = true ∨ pr.1.content = pr.2.content)) →
      read_MSCC files1 ex ps = read_MSCC files2 ex ps := by
  intro files1
  induction files1 with
  | nil =>
    intro files2 hlen _
    cases files2 with
    | nil => rfl
    | cons g gs => simp at hlen
  | cons f fs ih =>
    intro files2 hlen hzip
    cases files2 with
    | nil => simp at hlen
    | cons g gs =>
      have hfg := hzip (f, g) (by rw [List.zip_cons_cons]; exact List.mem_cons_self _ _)
      have hrest : read_MSCC fs ex ps = read_MSCC gs ex ps :=
        ih gs (by simpa using hlen)
          (fun pr hpr => hzip pr (by rw [List.zip_cons_cons]; exact List.mem_cons_of_mem _ hpr))
      rcases hfg with ⟨hname, hexc | hcont⟩
      · have hg : ex.contains (subjectId g.name) = true := by rw [← hname]; exact hexc
        simp only [read_MSCC, processFile_excluded hexc, processFile_excluded hg]
        exact hrest
      · have hfgeq : f = g := by
          cases f
          cases g
          simp_all
        rw [← hfgeq]
        simp only [read_MSCC, hrest]

/-! ### Lemmas about the outcome join -/

/-- Assigning an empty value list leaves the rows unchanged. -/
lemma assignVals_nil (sid : String) : ∀ rows, assignVals sid [] rows = rows := by
  intro rows
  induction rows with
  | nil => rfl
  | cons r rs ih =>
    unfold assignVals
    by_cases hr : r.subject == sid
    · rw [if_pos hr]
    · rw [if_neg hr, ih]

/-- Assignment does not touch rows of other subjects. -/
lemma assignVals_no_match {sid : String} {vals : List ℚ} :
    ∀ {rows : List CRow}, (∀ r ∈ rows, r.subject ≠ sid) →
      assignVals sid vals rows = rows := by
  intro rows
  induction rows with
  | nil => intro _; rfl
  | cons r rs ih =>
    intro h
    unfold assignVals
    rw [if_neg (by simp [h r (List.mem_cons_self r rs)]), ih
      (fun x hx => h x (List.mem_cons_of_mem r hx))]

/-- A masked assignment commutes with a leading row of a different subject. -/
lemma setMJOA_not_mem {sid : String} {vals : List ℚ} {r' : CRow} {rs : List CRow}
    (h : r'.subject ≠ sid) :
    setMJOA sid vals (r' :: rs) = (setMJOA sid vals rs).map (fun l => r' :: l) := by
  unfold setMJOA
  rw [List.filter_cons_of_neg (by simp [h])]
  by_cases hl : vals.length = (rs.filter (fun r => r.subject == sid)).length
  · rw [if_pos hl, if_pos hl]
    have : assignVals sid vals (r' :: rs) = r' :: assignVals sid vals rs := by
      simp only [assignVals]
      rw [if_neg (by simp [h])]
    rw [this]
    rfl
  · rw [if_neg hl, if_neg hl]
    rfl

/-- A masked assignment of a single value to the single matching row, sitting
at the head. -/
lemma setMJOA_head {sid : String} {v : ℚ} {r : CRow} {rs : List CRow}
    (hr : r.subject = sid) (hrs : ∀ x ∈ rs, x.subject ≠ sid) :
    setMJOA sid [v] (r :: rs) = .ok ({ r with mJOA := some v } :: rs) := by
  have hfil : rs.filter (fun x => x.subject == sid) = [] :=
    List.filter_eq_nil_iff.mpr (fun x hx => by simp [hrs x hx])
  unfold setMJOA
  rw [List.filter_cons_of_pos (by simp [hr]), hfil]
  rw [if_pos (by simp)]
  have : assignVals sid [v] (r :: rs) = { r with mJOA := some v } :: assignVals sid [] rs := by
    simp only [assignVals]
    rw [if_pos (by simp [hr])]
  rw [this, assignVals_nil]

/-- A masked assignment of an empty value list to at least one matching row
raises `ValueError`. -/
lemma setMJOA_absent {sid : String} {rows : List CRow}
    (hmem : ∃ r ∈ rows, r.subject = sid) :
    setMJOA sid [] rows = .error .valueError := by
  obtain ⟨r, hr, hrs⟩ := hmem
  unfold setMJOA
  rw [if_neg]
  intro hlen
  have hmemf : r ∈ rows.filter (fun x => x.subject == sid) :=
    List.mem_filter.mpr ⟨hr, by simp [hrs]⟩
  have hpos : 0 < (rows.filter (fun x => x.subject == sid)).length :=
    List.length_pos.mpr (List.ne_nil_of_mem hmemf)
  simp at hlen
  omega

/-- The join loop commutes with a leading row whose subject it never visits. -/
lemma addGo_not_mem {parts : List Participant} :
    ∀ (ss : List String) (r' : CRow) (rs : List CRow),
      (∀ s ∈ ss, s ≠ r'.subject) →
      addGo parts ss (r' :: rs) = (addGo parts ss rs).map (fun l => r' :: l) := by
  intro ss
  induction ss with
  | nil => intro r' rs _; rfl
  | cons s ss ih =>
    intro r' rs h
    have hs : r'.subject ≠ s := (h s (List.mem_cons_self s ss)).symm
    unfold addGo
    rw [setMJOA_not_mem hs]
    rcases hset : setMJOA s (mjoaVals parts s) rs with e | rows'
    · rfl
    · exact ih r' rows' (fun x hx => h x (List.mem_cons_of_mem s hx))

/-- Under a duplicate-free participants table, the filter for a present
subject id selects exactly its unique record. -/
lemma filter_part_singleton {parts : List Participant} {sid : String}
    {p : Participant} (hnd : (parts.map (fun q => q.participant_id)).Nodup)
    (hp : p ∈ parts) (hid : p.participant_id = sid) :
    parts.filter (fun q => q.participant_id == sid) = [p] := by
  induction parts with
  | nil => cases hp
  | cons q qs ih =>
    rw [List.map_cons, List.nodup_cons] at hnd
    by_cases hq : q.participant_id = sid
    · rw [List.filter_cons_of_pos (by simp [hq])]
      have hqs : qs.filter (fun x => x.participant_id == sid) = [] := by
        refine List.filter_eq_nil_iff.mpr (fun x hx hb => ?_)
        exact hnd.1 (List.mem_map.mpr ⟨x, hx, by rw [eq_of_beq hb, hq]⟩)
      have hpq : p = q := by
        rcases List.mem_cons.mp hp with h1 | h2
        · exact h1
        · exact absurd (List.mem_map.mpr ⟨p, h2, by rw [hid, hq]⟩) hnd.1
      rw [hqs, hpq]
    · rw [List.filter_cons_of_neg (by simp [hq])]
      have hpqs : p ∈ qs := by
        rcases List.mem_cons.mp hp with h1 | h2
        · exact absurd (h1 ▸ hid) hq
        · exact h2
      exact ih hnd.2 hpqs

/-- `partFor` of a present subject under a duplicate-free participants table. -/
lemma partFor_eq_some {parts : List Participant} {sid : String} {p : Participant}
    (hnd : (parts.map (fun q => q.participant_id)).Nodup)
    (hp : p ∈ parts) (hid : p.participant_id = sid) :
    partFor parts sid = some p := by
  unfold partFor
  rw [filter_part_singleton hnd hp hid]
  rfl

/-- `mjoaVals` of a present subject under a duplicate-free participants
table is the one-element list of its score. -/
lemma mjoaVals_eq_single {parts : List Participant} {sid : String} {p : Participant}
    (hnd : (parts.map (fun q => q.participant_id)).Nodup)
    (hp : p ∈ parts) (hid : p.participant_id = sid) :
    mjoaVals parts sid = [p.mjoa] := by
  unfold mjoaVals
  rw [filter_part_singleton hnd hp hid]
  rfl

/-- `mjoaVals` of an absent subject is empty. -/
lemma mjoaVals_eq_nil {parts : List Participant} {sid : String}
    (h : ∀ p ∈ parts, p.participant_id ≠ sid) : mjoaVals parts sid = [] := by
  unfold mjoaVals
  rw [List.filter_eq_nil_iff.mpr (fun p hp hb => h p hp (eq_of_beq hb))]
  rfl

/-- Success path of the join: under duplicate-free subjects and participants
with every subject present, `add_mJOA_to_df` fills each row's `mJOA` with its
participant's score and changes nothing else. -/
lemma add_mJOA_ok {parts : List Participant} :
    ∀ {rows : List CRow},
      (rows.map (fun r => r.subject)).Nodup →
      (parts.map (fun p => p.participant_id)).Nodup →
      (∀ r ∈ rows, ∃ p ∈ parts, p.participant_id = r.subject) →
      add_mJOA_to_df parts rows = .ok (rows.map (joinRow parts)) := by
  intro rows
  induction rows with
  | nil => intro _ _ _; rfl
  | cons r rs ih =>
    intro h1 h2 h3
    rw [List.map_cons, List.nodup_cons] at h1
    obtain ⟨p, hp, hid⟩ := h3 r (List.mem_cons_self r rs)
    have hrs : ∀ x ∈ rs, x.subject ≠ r.subject := by
      intro x hx he
      exact h1.1 (List.mem_map.mpr ⟨x, hx, he⟩)
    unfold add_mJOA_to_df
    rw [List.map_cons]
    simp only [addGo]
    rw [mjoaVals_eq_single h2 hp hid, setMJOA_head rfl hrs]
    have hcomm : addGo parts (rs.map (fun x => x.subject))
        ({ r with mJOA := some p.mjoa } :: rs) =
        (addGo parts (rs.map (fun x => x.subject)) rs).map
          (fun l => { r with mJOA := some p.mjoa } :: l) := by
      refine addGo_not_mem _ _ _ (fun s hs => ?_)
      obtain ⟨x, hx, hxe⟩ := List.mem_map.mp hs
      intro hcontra
      exact hrs x hx (hxe.trans hcontra)
    show addGo parts (List.map (fun x => x.subject) rs)
        ({ r with mJOA := some p.mjoa } :: rs) =
      Except.ok (List.map (joinRow parts) (r :: rs))
    have hih := ih h1.2 h2 (fun x hx => h3 x (List.mem_cons_of_mem r hx))
    unfold add_mJOA_to_df at hih
    rw [hcomm, hih]
    have hjr : joinRow parts r = { r with mJOA := some p.mjoa } := by
      unfold joinRow
      rw [partFor_eq_some h2 hp hid]
    rw [List.map_cons, hjr]
    rfl

/-- Error path of the join: under duplicate-free subjects and participants,
a consolidated row whose subject has no participant record makes
`add_mJOA_to_df` raise `ValueError` (pandas length-mismatch on the masked
assignment of an empty value list). -/
lemma add_mJOA_err {parts : List Participant} :
    ∀ {rows : List CRow},
      (rows.map (fun r => r.subject)).Nodup →
      (parts.map (fun p => p.participant_id)).Nodup →
      (∃ r ∈ rows, ∀ p ∈ parts, p.participant_id ≠ r.subject) →
      add_mJOA_to_df parts rows = .error .valueError := by
  intro rows
  induction rows with
  | nil =>
    intro _ _ habs
    obtain ⟨r, hr, _⟩ := habs
    cases hr
  | cons r rs ih =>
    intro h1 h2 habs
    rw [List.map_cons, List.nodup_cons] at h1
    have hrs : ∀ x ∈ rs, x.subject ≠ r.subject := by
      intro x hx he
      exact h1.1 (List.mem_map.mpr ⟨x, hx, he⟩)
    by_cases hhead : ∀ p ∈ parts, p.participant_id ≠ r.subject
    · unfold add_mJOA_to_df
      rw [List.map_cons]
      simp only [addGo]
      rw [mjoaVals_eq_nil hhead,
        setMJOA_absent ⟨r, List.mem_cons_self r rs, rfl⟩]
    · push_neg at hhead
      obtain ⟨p, hp, hid⟩ := hhead
      obtain ⟨r0, hr0, habs0⟩ := habs
      have hr0rs : r0 ∈ rs := by
        rcases List.mem_cons.mp hr0 with h0 | h0
        · exact absurd (h0 ▸ hid) (habs0 p hp)
        · exact h0
      unfold add_mJOA_to_df
      rw [List.map_cons]
      simp only [addGo]
      rw [mjoaVals_eq_single h2 hp hid, setMJOA_head rfl hrs]
      have hcomm : addGo parts (rs.map (fun x => x.subject))
          ({ r with mJOA := some p.mjoa } :: rs) =
          (addGo parts (rs.map (fun x => x.subject)) rs).map
            (fun l => { r with mJOA := some p.mjoa } :: l) := by
        refine addGo_not_mem _ _ _ (fun s hs => ?_)
        obtain ⟨x, hx, hxe⟩ := List.mem_map.mp hs
        intro hcontra
        exact hrs x hx (hxe.trans hcontra)
      show addGo parts (List.map (fun x => x.subject) rs)
          ({ r with mJOA := some p.mjoa } :: rs) =
        Except.error RunError.valueError
      have hih := ih h1.2 h2 ⟨r0, hr0rs, habs0⟩
      unfold add_mJOA_to_df at hih
      rw [hcomm, hih]
      rfl

/-! ### Lemmas about the correlation engine and the pipeline -/

/-- scipy raises `ValueError` on 1-D inputs of different lengths. -/
lemma spearmanr_length_mismatch {a b : List ℚ} (h : a.length ≠ b.length) :
    spearmanr a b = .error .valueError := by
  unfold spearmanr
  rw [if_pos h]

/-- scipy returns a NaN result, not an error, on fewer than two
observations. -/
lemma spearmanr_small {a b : List ℚ} (hlen : a.length = b.length)
    (h : a.length < 2) : spearmanr a b = .ok .nan := by
  unfold spearmanr
  rw [if_neg (fun hn => hn hlen), if_pos (by omega)]

/-- Under the pandas length check, every row the assignment touches is either
a row of subject `sid` that just received a value, or an untouched row of a
different subject. -/
lemma assignVals_sets {sid : String} :
    ∀ {vals : List ℚ} {rows : List CRow},
      vals.length = (rows.filter (fun r => r.subject == sid)).length →
      ∀ r' ∈ assignVals sid vals rows,
        ((∃ v, r'.mJOA = some v) ∧ r'.subject = sid) ∨
        (r' ∈ rows ∧ r'.subject ≠ sid) := by
  intro vals rows
  induction rows generalizing vals with
  | nil =>
    intro _ r' hr'
    cases hr'
  | cons r rs ih =>
    intro hlen r' hr'
    by_cases hr : r.subject = sid
    · rw [List.filter_cons_of_pos (by simp [hr])] at hlen
      cases vals with
      | nil => simp at hlen
      | cons v vt =>
        have hvt : vt.length = (rs.filter (fun x => x.subject == sid)).length := by
          simpa using hlen
        have hav : assignVals sid (v :: vt) (r :: rs) =
            { r with mJOA := some v } :: assignVals sid vt rs := by
          simp only [assignVals]
          rw [if_pos (by simp [hr])]
        rw [hav] at hr'
        rcases List.mem_cons.mp hr' with h0 | h0
        · exact Or.inl ⟨⟨v, by rw [h0]⟩, by rw [h0]; exact hr⟩
        · rcases ih hvt r' h0 with h1 | h1
          · exact Or.inl h1
          · exact Or.inr ⟨List.mem_cons_of_mem r h1.1, h1.2⟩
    · rw [List.filter_cons_of_neg (by simp [hr])] at hlen
      have hav : assignVals sid vals (r :: rs) = r :: assignVals sid vals rs := by
        simp only [assignVals]
        rw [if_neg (by simp [hr])]
      rw [hav] at hr'
      rcases List.mem_cons.mp hr' with h0 | h0
      · exact Or.inr ⟨by rw [h0]; exact List.mem_cons_self r rs, by rw [h0]; exact hr⟩
      · rcases ih hlen r' h0 with h1 | h1
        · exact Or.inl h1
        · exact Or.inr ⟨List.mem_cons_of_mem r h1.1, h1.2⟩

/-- Inversion of a successful masked assignment: the pandas length check
passed and the result is the elementwise assignment. -/
lemma setMJOA_ok_inv {sid : String} {vals : List ℚ} {rows rows' : List CRow}
    (h : setMJOA sid vals rows = .ok rows') :
    vals.length = (rows.filter (fun r => r.subject == sid)).length ∧
    rows' = assignVals sid vals rows := by
  unfold setMJOA at h
  by_cases hl : vals.length = (rows.filter (fun r => r.subject == sid)).length
  · rw [if_pos hl] at h
    exact ⟨hl, (Except.ok.injEq _ _ ▸ h).symm⟩
  · rw [if_neg hl] at h
    cases h

/-- After a successful run of the join loop, every row whose subject was
still pending, or that was already set, ends with its `mJOA` cell set. -/
lemma addGo_sets {parts : List Participant} :
    ∀ (ss : List String) {rows rows' : List CRow},
      addGo parts ss rows = .ok rows' →
      (∀ r ∈ rows, r.mJOA ≠ none ∨ r.subject ∈ ss) →
      ∀ r' ∈ rows', r'.mJOA ≠ none := by
  intro ss
  induction ss with
  | nil =>
    intro rows rows' h hinv r' hr'
    simp only [addGo, Except.ok.injEq] at h
    rcases hinv r' (h ▸ hr') with h0 | h0
    · exact h0
    · cases h0
  | cons s ss ih =>
    intro rows rows' h hinv
    rcases hset : setMJOA s (mjoaVals parts s) rows with e | rows₁
    · simp only [addGo, hset] at h
      cases h
    · simp only [addGo, hset] at h
      obtain ⟨hlen, hrows₁⟩ := setMJOA_ok_inv hset
      refine ih h (fun r₁ hr₁ => ?_)
      rcases assignVals_sets hlen r₁ (hrows₁ ▸ hr₁) with h1 | h1
      · obtain ⟨⟨v, hv⟩, _⟩ := h1
        exact Or.inl (by rw [hv]; exact Option.some_ne_none v)
      · rcases hinv r₁ h1.1 with h2 | h2
        · exact Or.inl h2
        · rcases List.mem_cons.mp h2 with h3 | h3
          · exact absurd h3 h1.2
          · exact Or.inr h3

/-- After a successful join, every `mJOA` cell of the result is set: the
`getD` default in `mJOAColumn` is never read on the pipeline's success
path. -/
lemma add_mJOA_sets_all {parts : List Participant} {rows rows' : List CRow}
    (h : add_mJOA_to_df parts rows = .ok rows') :
    ∀ r' ∈ rows', r'.mJOA ≠ none := by
  unfold add_mJOA_to_df at h
  exact addGo_sets (rows.map (fun r => r.subject)) h
    (fun r hr => Or.inr (List.mem_map.mpr ⟨r, hr, rfl⟩))

/-- A run that reduces zero subjects aborts with `KeyError` at the `mJOA`
column access: the empty join loop never created the column, and no
correlation is computed. -/
lemma runPipeline_empty {files : List FileEntry} {ex : List String}
    {ps : List Participant} (h : read_MSCC files ex ps = .ok ([] : List CRow)) :
    runPipeline files ex ps = .error .keyError := by
  unfold runPipeline
  rw [h]
  rfl

/-- Pointwise relation between a list and its image under a map. -/
lemma forall2_map_self {α β : Type} {R : α → β → Prop} {f : α → β} :
    ∀ {l : List α}, (∀ x ∈ l, R x (f x)) → List.Forall₂ R l (l.map f) := by
  intro l
  induction l with
  | nil => intro _; exact List.Forall₂.nil
  | cons x xs ih =>
    intro h
    rw [List.map_cons]
    exact List.Forall₂.cons (h x (List.mem_cons_self x xs))
      (ih (fun y hy => h y (List.mem_cons_of_mem x hy)))

/-! ### Claim theorems -/

/-- C1, counterexample: with target ordinal 5 and available ordinals 7 and 3
(equidistant, table order `[7, 3]`), the fallback returns 7, the value at the
first minimal index in table order — not the lower ordinal 3 the claim
demands regardless of order. -/
theorem C1_counterexample :
    chooseLevel 5 [⟨7, 0, 0⟩, ⟨3, 0, 0⟩] = some 7 ∧
    (5 : ℤ) ∉ ([⟨7, 0, 0⟩, ⟨3, 0, 0⟩] : List MRow).map (fun m => m.level) ∧
    |(7 : ℤ) - 5| = |(3 : ℤ) - 5| ∧ (7 : ℤ) ≠ 3 :=
  ⟨rfl, by decide, by decide, by decide⟩

/-- C1, amended: for every non-empty table not containing the target ordinal,
the resolver returns the ordinal with minimum absolute difference to the
target, and when two ordinals are equidistant it returns the one occurring
first in the table's order (every strictly earlier ordinal has strictly
larger distance); the lower ordinal wins only when it appears first, e.g. in
an ascending table. -/
theorem C1_amended (target : ℤ) (tbl : List MRow) (hne : tbl ≠ [])
    (hni : target ∉ tbl.map (fun m => m.level)) :
    ∃ v pre suf, chooseLevel target tbl = some v ∧
      tbl.map (fun m => m.level) = pre ++ v :: suf ∧
      (∀ p ∈ pre, |v - target| < |p - target|) ∧
      ∀ l ∈ tbl.map (fun m => m.level), |v - target| ≤ |l - target| := by
  have hc : (tbl.map (fun m => m.level)).contains target = false := by
    simpa using hni
  have hmapne : tbl.map (fun m => m.level) ≠ [] := by
    intro hmap
    exact hne (List.map_eq_nil_iff.mp hmap)
  obtain ⟨v, pre, suf, hargmin, hsplit, hpre, hmin⟩ :=
    argminLevel_spec target (tbl.map (fun m => m.level)) hmapne
  refine ⟨v, pre, suf, ?_, hsplit, hpre, hmin⟩
  unfold chooseLevel
  rw [if_neg (by rw [hc]; exact Bool.false_ne_true), hargmin]

/-- C1, witness: the amended theorem applied to target 5 and table order
`[7, 3]`. -/
theorem C1_amended_witness :
    ∃ v pre suf, chooseLevel 5 [⟨7, 1, 1⟩, ⟨3, 2, 2⟩] = some v ∧
      ([⟨7, 1, 1⟩, ⟨3, 2, 2⟩] : List MRow).map (fun m => m.level) = pre ++ v :: suf ∧
      (∀ p ∈ pre, |v - 5| < |p - 5|) ∧
      ∀ l ∈ ([⟨7, 1, 1⟩, ⟨3, 2, 2⟩] : List MRow).map (fun m => m.level),
        |v - 5| ≤ |l - 5| :=
  C1_amended 5 [⟨7, 1, 1⟩, ⟨3, 2, 2⟩] (by decide) (by decide)

/-- C2: when the target ordinal occurs in the subject's table, the resolver
returns exactly the target, the selected row is the first row in table order
at that ordinal (all earlier rows miss it), and every consolidated row the
loop step emits for such a subject copies that row's `MSCC` and
`Normalized MSCC`. -/
theorem C2_exact_level (target : ℤ) (tbl : List MRow)
    (h : target ∈ tbl.map (fun m => m.level)) :
    chooseLevel target tbl = some target ∧
    ∃ pre r suf, tbl = pre ++ r :: suf ∧ r.level = target ∧
      (∀ q ∈ pre, q.level ≠ target) ∧ selectRow target tbl = some r ∧
      ∀ (ex : List String) (ps : List Participant) (f : FileEntry) (c : CRow),
        f.content = some tbl →
        (∃ p, partFor ps (subjectId f.name) = some p ∧
          DICT_DISC_LABELS p.max_compression_level = some target) →
        processFile ex ps f = .ok (some c) →
        c = ⟨subjectId f.name, target, r.mscc, r.mscc_norm, none⟩ := by
  obtain ⟨pre, r, suf, hsplit, hrt, hpre, hsel⟩ := selectRow_exact h
  refine ⟨chooseLevel_exact h, pre, r, suf, hsplit, hrt, hpre, hsel, ?_⟩
  intro ex ps f c hcont hex hpf
  obtain ⟨p, hp, hd⟩ := hex
  obtain ⟨_, _, tbl', p', tg', m', hc', hp', hd', hs', hceq⟩ := processFile_ok_some hpf
  have htbl := Option.some_injective _ (hcont.symm.trans hc')
  subst htbl
  have hpp := Option.some_injective _ (hp.symm.trans hp')
  subst hpp
  have htg := Option.some_injective _ (hd.symm.trans hd')
  subst htg
  have hm := Option.some_injective _ (hsel.symm.trans hs')
  subst hm
  rw [hceq, hrt]

/-- C2, witness: the theorem applied to target 5 and a table with a duplicate
row at ordinal 5 — the first occurrence (with `MSCC` 2) wins. -/
theorem C2_exact_level_witness :
    chooseLevel 5 [⟨3, 1, 10⟩, ⟨5, 2, 20⟩, ⟨5, 3, 30⟩] = some 5 ∧
    ∃ pre r suf, ([⟨3, 1, 10⟩, ⟨5, 2, 20⟩, ⟨5, 3, 30⟩] : List MRow) = pre ++ r :: suf ∧
      r.level = 5 ∧ (∀ q ∈ pre, q.level ≠ 5) ∧
      selectRow 5 [⟨3, 1, 10⟩, ⟨5, 2, 20⟩, ⟨5, 3, 30⟩] = some r ∧
      ∀ (ex : List String) (ps : List Participant) (f : FileEntry) (c : CRow),
        f.content = some [⟨3, 1, 10⟩, ⟨5, 2, 20⟩, ⟨5, 3, 30⟩] →
        (∃ p, partFor ps (subjectId f.name) = some p ∧
          DICT_DISC_LABELS p.max_compression_level = some 5) →
        processFile ex ps f = .ok (some c) →
        c = ⟨subjectId f.name, 5, r.mscc, r.mscc_norm, none⟩ :=
  C2_exact_level 5 [⟨3, 1, 10⟩, ⟨5, 2, 20⟩, ⟨5, 3, 30⟩] (by decide)

/-- C3: a successful reduction emits one row per kept file — exactly the
`_mscc` files whose subject is not excluded — with subjects in discovery
order, and an empty directory listing reduces to the empty table without
error. -/
theorem C3_reduce_excludes (files : List FileEntry) (ex : List String)
    (ps : List Participant) (rows : List CRow)
    (h : read_MSCC files ex ps = .ok rows) :
    rows.map (fun r => r.subject) =
      (keptFiles files ex).map (fun f => subjectId f.name) ∧
    read_MSCC [] ex ps = .ok ([] : List CRow) :=
  ⟨read_MSCC_subjects h, rfl⟩

/-- C3, witness: the theorem applied to a listing with one excluded subject,
one kept subject and one non-`_mscc` file. -/
theorem C3_reduce_excludes_witness :
    ([⟨"sub-B", 4, 2, 2, none⟩] : List CRow).map (fun r => r.subject) =
      (keptFiles [⟨"sub-A_mscc.csv", some [⟨3, 1, 1⟩]⟩,
        ⟨"sub-B_mscc.csv", some [⟨4, 2, 2⟩]⟩,
        ⟨"sub-C_T1w.csv", some []⟩] ["sub-A"]).map (fun f => subjectId f.name) ∧
    read_MSCC [] ["sub-A"] [⟨"sub-B", "C2/C3", 10⟩] = .ok ([] : List CRow) :=
  C3_reduce_excludes
    [⟨"sub-A_mscc.csv", some [⟨3, 1, 1⟩]⟩, ⟨"sub-B_mscc.csv", some [⟨4, 2, 2⟩]⟩,
      ⟨"sub-C_T1w.csv", some []⟩]
    ["sub-A"] [⟨"sub-B", "C2/C3", 10⟩] [⟨"sub-B", 4, 2, 2, none⟩] (by rfl)

/-- C4, counterexample: with `sub-A` lacking a participant record and `sub-B`
well-formed, the whole reduction aborts with `IndexError` and produces no
table at all — even though `sub-B` alone reduces fine — contradicting the
claim that the run continues past the failing subject. -/
theorem C4_counterexample :
    read_MSCC [⟨"sub-A_mscc.csv", some [⟨3, 1, 1⟩]⟩,
      ⟨"sub-B_mscc.csv", some [⟨3, 2, 2⟩]⟩] [] [⟨"sub-B", "C2/C3", 10⟩] =
      .error .indexError ∧
    read_MSCC [⟨"sub-B_mscc.csv", some [⟨3, 2, 2⟩]⟩] [] [⟨"sub-B", "C2/C3", 10⟩] =
      .ok [⟨"sub-B", 3, 2, 2, none⟩] :=
  ⟨rfl, rfl⟩

/-- C4, amended: a kept measurement file whose subject has no entry in the
participants table makes the whole run abort with an uncaught exception
(`IndexError` from the empty lookup, or the csv load error); no consolidated
table is produced and the remaining subjects are not processed. -/
theorem C4_amended (files : List FileEntry) (ex : List String)
    (ps : List Participant) (f : FileEntry) (hf : f ∈ files)
    (h1 : isMsccFile f.name = true)
    (h2 : ex.contains (subjectId f.name) = false)
    (h3 : ∀ p ∈ ps, p.participant_id ≠ subjectId f.name) :
    ∃ e, read_MSCC files ex ps = .error e :=
  read_MSCC_err_missing_meta hf h1 h2 h3

/-- C4, witness: the amended theorem applied to a single orphan measurement
file. -/
theorem C4_amended_witness :
    ∃ e, read_MSCC [⟨"sub-F_mscc.csv", some [⟨3, 1, 1⟩]⟩] []
      [⟨"sub-G", "C2/C3", 9⟩] = .error e :=
  C4_amended [⟨"sub-F_mscc.csv", some [⟨3, 1, 1⟩]⟩] [] [⟨"sub-G", "C2/C3", 9⟩]
    ⟨"sub-F_mscc.csv", some [⟨3, 1, 1⟩]⟩ (by decide) (by decide) (by decide)
    (by decide)

/-- C5: under duplicate-free subjects and participants, the outcome join
raises a hard `ValueError` (rather than leaving a null) as soon as some row's
subject has no outcome, and when every subject is present it returns the rows
in unchanged order with only the `mJOA` field filled in from the matching
participant. -/
theorem C5_outcome_join (parts : List Participant) (rows : List CRow)
    (h1 : (rows.map (fun r => r.subject)).Nodup)
    (h2 : (parts.map (fun p => p.participant_id)).Nodup) :
    ((∃ r ∈ rows, ∀ p ∈ parts, p.participant_id ≠ r.subject) →
      add_mJOA_to_df parts rows = .error .valueError) ∧
    ((∀ r ∈ rows, ∃ p ∈ parts, p.participant_id = r.subject) →
      ∃ rows', add_mJOA_to_df parts rows = .ok rows' ∧
        List.Forall₂ (fun r r' => r'.subject = r.subject ∧ r'.level = r.level ∧
          r'.mscc = r.mscc ∧ r'.mscc_norm = r.mscc_norm ∧
          ∃ p ∈ parts, p.participant_id = r.subject ∧ r'.mJOA = some p.mjoa)
          rows rows') := by
  constructor
  · exact add_mJOA_err h1 h2
  · intro h3
    refine ⟨rows.map (joinRow parts), add_mJOA_ok h1 h2 h3, ?_⟩
    refine forall2_map_self (fun r hr => ?_)
    obtain ⟨p, hp, hid⟩ := h3 r hr
    have hjr : joinRow parts r = { r with mJOA := some p.mjoa } := by
      unfold joinRow
      rw [partFor_eq_some h2 hp hid]
    rw [hjr]
    exact ⟨rfl, rfl, rfl, rfl, p, hp, hid, rfl⟩

/-- C5, witness: the theorem applied to one row and one matching
participant. -/
theorem C5_outcome_join_witness :
    ((∃ r ∈ ([⟨"sub-A", 3, 1, 1, none⟩] : List CRow),
      ∀ p ∈ ([⟨"sub-A", "C2/C3", 7⟩] : List Participant),
        p.participant_id ≠ r.subject) →
      add_mJOA_to_df [⟨"sub-A", "C2/C3", 7⟩] [⟨"sub-A", 3, 1, 1, none⟩] =
        .error .valueError) ∧
    ((∀ r ∈ ([⟨"sub-A", 3, 1, 1, none⟩] : List CRow),
      ∃ p ∈ ([⟨"sub-A", "C2/C3", 7⟩] : List Participant),
        p.participant_id = r.subject) →
      ∃ rows' : List CRow,
        add_mJOA_to_df [⟨"sub-A", "C2/C3", 7⟩] [⟨"sub-A", 3, 1, 1, none⟩] =
          .ok rows' ∧
        List.Forall₂ (fun (r r' : CRow) => r'.subject = r.subject ∧
          r'.level = r.level ∧
          r'.mscc = r.mscc ∧ r'.mscc_norm = r.mscc_norm ∧
          ∃ p ∈ ([⟨"sub-A", "C2/C3", 7⟩] : List Participant),
            p.participant_id = r.subject ∧ r'.mJOA = some p.mjoa)
          [⟨"sub-A", 3, 1, 1, none⟩] rows') :=
  C5_outcome_join [⟨"sub-A", "C2/C3", 7⟩] [⟨"sub-A", 3, 1, 1, none⟩]
    (by decide) (by decide)

/-- C6, counterexample: on the single paired observation `([1], [1])` the
correlation engine returns a NaN result instead of failing with an error, so
it does silently emit an undefined coefficient on fewer than two paired
observations. -/
theorem C6_counterexample :
    compute_spearmans [1] [1] = .ok Spearman.nan ∧
    ∀ e, compute_spearmans [1] [1] ≠ .error e := by
  refine ⟨rfl, fun e h => ?_⟩
  have h0 : compute_spearmans [1] [1] = Except.ok Spearman.nan := rfl
  rw [h0] at h
  cases h

/-- C6, amended: inputs of different lengths make the correlation engine
raise `ValueError` (a hard scipy shape error), but equal-length inputs with
fewer than two observations yield a NaN result rather than an error. -/
theorem C6_amended (a b : List ℚ) :
    (a.length ≠ b.length → compute_spearmans a b = .error .valueError) ∧
    (a.length = b.length → a.length < 2 → compute_spearmans a b = .ok .nan) := by
  constructor
  · intro h
    exact spearmanr_length_mismatch h
  · intro h1 h2
    exact spearmanr_small h1 h2

/-- C6, witness: the amended theorem applied to a length-mismatched pair and
to a single-observation pair. -/
theorem C6_amended_witness :
    compute_spearmans [1] [3, 4] = .error .valueError ∧
    compute_spearmans [2] [5] = .ok .nan :=
  ⟨(C6_amended [1] [3, 4]).1 (by decide), (C6_amended [2] [5]).2 rfl (by decide)⟩

/-- C7: a successfully reduced table whose kept files carry pairwise distinct
subject ids has pairwise distinct row subjects (at most one row per subject),
and every row's selected level is the `Compression Level` of some row of that
same subject's own measurement table. -/
theorem C7_invariant (files : List FileEntry) (ex : List String)
    (ps : List Participant) (rows : List CRow)
    (h : read_MSCC files ex ps = .ok rows)
    (hnd : ((keptFiles files ex).map (fun f => subjectId f.name)).Nodup) :
    (rows.map (fun r => r.subject)).Nodup ∧
    ∀ r ∈ rows, ∃ f ∈ files, subjectId f.name = r.subject ∧
      ∃ tbl, f.content = some tbl ∧ r.level ∈ tbl.map (fun m => m.level) := by
  constructor
  · rw [read_MSCC_subjects h]
    exact hnd
  · exact read_MSCC_rows_sound h

/-- C7, witness: the theorem applied to one subject whose target 5 is absent
from its table with levels 4 and 6 (the fallback picks 4). -/
theorem C7_invariant_witness :
    (([⟨"sub-D", 4, 5, 6, none⟩] : List CRow).map (fun r => r.subject)).Nodup ∧
    ∀ r ∈ ([⟨"sub-D", 4, 5, 6, none⟩] : List CRow),
      ∃ f ∈ ([⟨"sub-D_mscc.csv", some [⟨4, 5, 6⟩, ⟨6, 7, 8⟩]⟩] : List FileEntry),
        subjectId f.name = r.subject ∧
        ∃ tbl, f.content = some tbl ∧ r.level ∈ tbl.map (fun m => m.level) :=
  C7_invariant [⟨"sub-D_mscc.csv", some [⟨4, 5, 6⟩, ⟨6, 7, 8⟩]⟩] []
    [⟨"sub-D", "C4/C5", 11⟩] [⟨"sub-D", 4, 5, 6, none⟩] (by rfl) (by decide)

/-- C8: the pipeline is a pure function of the discovered listing, the
participants table and the exclusion set's membership — two runs whose
exclusion lists agree on membership (e.g. the YAML list versus a dict, or a
list with duplicates) produce identical consolidated tables and correlation
results. -/
theorem C8_determinism (files : List FileEntry) (ps : List Participant)
    (ex1 ex2 : List String) (hex : ∀ s, ex1.contains s = ex2.contains s) :
    runPipeline files ex1 ps = runPipeline files ex2 ps := by
  unfold runPipeline
  rw [read_MSCC_contains_ext hex files]

/-- C8, witness: the theorem applied to two membership-equal exclusion
lists. -/
theorem C8_determinism_witness :
    runPipeline [⟨"sub-H_mscc.csv", some [⟨3, 1, 1⟩]⟩] ["sub-H"] [] =
      runPipeline [⟨"sub-H_mscc.csv", some [⟨3, 1, 1⟩]⟩] ["sub-H", "sub-H"] [] :=
  C8_determinism [⟨"sub-H_mscc.csv", some [⟨3, 1, 1⟩]⟩] [] ["sub-H"]
    ["sub-H", "sub-H"] (fun s => by by_cases h : s = "sub-H" <;> simp [h])

/-- C9: a run that reduces zero subjects terminates with a reported failure —
the `df['mJOA']` access raises an uncaught `KeyError` because the zero-
iteration join loop never created the column — before any correlation is
computed, so the run never proceeds to emit an empty or NaN correlation
result. -/
theorem C9_zero_subjects_fail (files : List FileEntry) (ex : List String)
    (ps : List Participant) (h : read_MSCC files ex ps = .ok ([] : List CRow)) :
    runPipeline files ex ps = .error .keyError ∧
    ∀ out, runPipeline files ex ps ≠ .ok out := by
  refine ⟨runPipeline_empty h, fun out hout => ?_⟩
  rw [runPipeline_empty h] at hout
  cases hout

/-- C9, witness: the theorem applied to a listing holding only a
non-measurement file, which reduces to zero subjects. -/
theorem C9_zero_subjects_fail_witness :
    runPipeline [⟨"notes.txt", none⟩] [] [] = .error .keyError ∧
    ∀ out, runPipeline [⟨"notes.txt", none⟩] [] [] ≠ .ok out :=
  C9_zero_subjects_fail [⟨"notes.txt", none⟩] [] [] rfl

/-- C10: the reduction never inspects the content of a file whose subject id
is excluded — two listings equal in names and in the contents of all
non-excluded files (the excluded file may even be malformed, `content =
none`) reduce identically. -/
theorem C10_excluded_independent (ex : List String) (ps : List Participant)
    (files1 files2 : List FileEntry) (hlen : files1.length = files2.length)
    (hzip : ∀ pr ∈ files1.zip files2, pr.1.name = pr.2.name ∧
      (ex.contains (subjectId pr.1.name) = true ∨ pr.1.content = pr.2.content)) :
    read_MSCC files1 ex ps = read_MSCC files2 ex ps :=
  read_MSCC_excluded_content_irrelevant files1 files2 hlen hzip

/-- C10, witness: the theorem applied to an excluded subject's file that is
malformed in one run and well-formed in the other. -/
theorem C10_excluded_independent_witness :
    read_MSCC [⟨"sub-E_mscc.csv", none⟩] ["sub-E"] [] =
      read_MSCC [⟨"sub-E_mscc.csv", some [⟨3, 9, 9⟩]⟩] ["sub-E"] [] :=
  C10_excluded_independent ["sub-E"] [] [⟨"sub-E_mscc.csv", none⟩]
    [⟨"sub-E_mscc.csv", some [⟨3, 9, 9⟩]⟩] (by decide) (by decide)
